import Mathlib

/-!
# Shallow embedding of `src/db.c` (single-file storage engine)

The source is a single-table storage engine: a pager over a 4096-byte-paged
file whose page 0 holds one leaf node (an array of key/row cells preceded by
a small header).  The REPL layer (`main`) exposes `insert` and `select`
commands; this file embeds the data model and the operations those commands
run, and proves the spec's claims about them.

Modelling conventions:
- machine integers (`uint32_t`) are `Nat`; no arithmetic that can overflow a
  `uint32_t` occurs in the modelled code (keys and counts are only compared);
- a page's bytes are modelled structurally: the common node header
  (`node_type`, `is_root`, `parent`) plus the leaf body, where the pair of
  the cell count field and the cell array is modelled as a single
  `cells : List Cell` (the count is `cells.length`; in the C code the two
  always agree on every initialized page);
- the page cache (`Pager.pages`, a 100-entry array of nullable buffers in C)
  is a function `Nat → Option Page`;
- the backing file is a length in bytes plus the list of its full pages
  (`FileS`); a trailing partial page is representable by a length that is
  not a multiple of `PAGE_SIZE`;
- C functions that mutate state in place become state-passing functions;
  `exit(EXIT_FAILURE)` paths surface as `Option`/a dedicated result value.
-/

/-! ## Layout constants, translated from the constants in `db.c` -/

def COLUMN_USERNAME_SIZE : Nat := 32

def COLUMN_EMAIL_SIZE : Nat := 255

def ID_SIZE : Nat := 4

def USERNAME_SIZE : Nat := COLUMN_USERNAME_SIZE + 1

def EMAIL_SIZE : Nat := COLUMN_EMAIL_SIZE + 1

def ROW_SIZE : Nat := ID_SIZE + USERNAME_SIZE + EMAIL_SIZE

def PAGE_SIZE : Nat := 4096

def TABLE_MAX_PAGES : Nat := 100

/-- One past the largest `uint32_t` value: arithmetic the C source performs
in `uint32_t` is reduced modulo this constant where the result is stored in
(or computed through) a 32-bit quantity. -/
def UINT32_MOD : Nat := 4294967296

def NODE_TYPE_SIZE : Nat := 1

def IS_ROOT_SIZE : Nat := 1

def PARENT_POINTER_SIZE : Nat := 4

def NODE_TYPE_OFFSET : Nat := 0

def IS_ROOT_OFFSET : Nat := NODE_TYPE_OFFSET + NODE_TYPE_SIZE

def PARENT_POINTER_OFFSET : Nat := IS_ROOT_OFFSET + IS_ROOT_SIZE

def COMMON_NODE_HEADER_SIZE : Nat :=
  NODE_TYPE_SIZE + IS_ROOT_SIZE + PARENT_POINTER_SIZE

def LEAF_NODE_NUM_CELLS_SIZE : Nat := 4

def LEAF_NODE_NUM_CELLS_OFFSET : Nat := COMMON_NODE_HEADER_SIZE

def LEAF_NODE_HEADER_SIZE : Nat :=
  COMMON_NODE_HEADER_SIZE + LEAF_NODE_NUM_CELLS_SIZE

def LEAF_NODE_KEY_SIZE : Nat := 4

def LEAF_NODE_VALUE_SIZE : Nat := ROW_SIZE

def LEAF_NODE_CELL_SIZE : Nat := LEAF_NODE_KEY_SIZE + LEAF_NODE_VALUE_SIZE

def LEAF_NODE_SPACE_FOR_CELLS : Nat := PAGE_SIZE - LEAF_NODE_HEADER_SIZE

def LEAF_NODE_MAX_CELLS : Nat :=
  LEAF_NODE_SPACE_FOR_CELLS / LEAF_NODE_CELL_SIZE

/-! ## Pointer-arithmetic accessors (`leaf_node_cell` / key / value)

`leaf_node_cell(node, cell_num)` in the C source returns
`(char*)node + LEAF_NODE_HEADER_SIZE + cell_num * LEAF_NODE_CELL_SIZE`; it
never consults the node's cell count.  We embed the three accessors as the
byte offsets they compute within the page.  `cell_num` and
`LEAF_NODE_CELL_SIZE` are `uint32_t`, so their product wraps modulo 2^32
before it is added to the (64-bit) pointer; the pointer additions
themselves do not wrap. -/

def leaf_node_cell (cell_num : Nat) : Nat :=
  LEAF_NODE_HEADER_SIZE + (cell_num * LEAF_NODE_CELL_SIZE) % UINT32_MOD

def leaf_node_key_offset (cell_num : Nat) : Nat :=
  leaf_node_cell cell_num

def leaf_node_value_offset (cell_num : Nat) : Nat :=
  leaf_node_cell cell_num + LEAF_NODE_KEY_SIZE

/-- Modelled from the spec: "every accessor must reject an index ≥ the
node's own count with a programming-contract violation".  The C accessors
have no such check; this spec-side variant is the comparison point for the
refinement claim C8. -/
def leaf_node_cell_spec (num_cells cell_num : Nat) : Option Nat :=
  if cell_num < num_cells then some (leaf_node_cell cell_num) else none

/-! ## Data model -/

/-- `Row` from `db.c`: a u32 id plus two fixed-width string buffers.  The
byte contents of `username`/`email` are carried opaquely (serialization is
a fixed-width `memcpy` in both directions). -/
structure RowT where
  id : Nat
  username : String
  email : String
deriving DecidableEq, Repr

/-- `NodeType` enum: `NODE_INTERNAL = 0`, `NODE_LEAF = 1`. -/
inductive NodeTypeE where
  | internal
  | leaf
deriving DecidableEq, Repr

/-- One leaf cell: 4-byte key followed by the serialized row. -/
abbrev Cell : Type := Nat × RowT

/-- A 4096-byte page, decoded: common node header (node kind byte, is-root
byte, parent pointer) and the leaf body (cell count + cells, modelled as
`cells`). -/
structure Page where
  node_type : NodeTypeE
  is_root : Bool
  parent : Nat
  cells : List Cell
deriving DecidableEq, Repr

/-- A freshly `malloc`ed and `memset(0)`-ed page, decoded: byte 0 = 0 is
`NODE_INTERNAL`, the is-root byte is 0 (false), parent 0, count 0. -/
def zeroPage : Page :=
  { node_type := NodeTypeE.internal, is_root := false, parent := 0, cells := [] }

/-- The backing file: its byte length and the contents of its full pages
(`pages.length = len / PAGE_SIZE` whenever the file was produced by this
engine; a trailing partial page contributes to `len` only). -/
structure FileS where
  len : Nat
  pages : List Page
deriving DecidableEq, Repr

def emptyFile : FileS := { len := 0, pages := [] }

/-- `Pager`: file descriptor state (the current file contents stand in for
the descriptor), the `file_length` read at open, the high-water page count,
and the page cache. -/
structure PagerS where
  file : FileS
  file_length : Nat
  num_pages : Nat
  pages : Nat → Option Page

/-- `Table`: a pager plus the root page number. -/
structure TableS where
  pager : PagerS
  root_page_num : Nat

/-- `Cursor`: a (page, cell) position plus the end-of-table flag.
`leaf_node_find` leaves `end_of_table` uninitialized in C; we model that
field as `false` there (it is set before any use, in `table_start`). -/
structure CursorS where
  page_num : Nat
  cell_num : Nat
  end_of_table : Bool

/-! ## Pager operations -/

/-- `pager_open`: record the file length, compute `num_pages` by integer
division (`file_length / PAGE_SIZE`), clear the cache.  There is no check
that the length is a multiple of `PAGE_SIZE`.  The local `file_length` in
the C source is an `off_t` (it holds the full length, `f.len` here), but
the struct fields `file_length` and `num_pages` are `uint32_t`, so both
assignments truncate modulo 2^32: the division itself happens on the
untruncated `off_t` local. -/
def pager_open (f : FileS) : PagerS :=
  { file := f
    file_length := f.len % UINT32_MOD
    num_pages := (f.len / PAGE_SIZE) % UINT32_MOD
    pages := fun _ => none }

/-- Modelled from the spec: "file length not a multiple of page size …
fatal at open, surfaced, no silent repair" (`CorruptionError`).  The C
`pager_open` has no such check; this spec-side variant is the comparison
point for claim C7. -/
inductive DbError where
  | corruption
deriving DecidableEq, Repr

/-- Modelled from the spec (see `DbError`): an `open` that rejects a file
whose length is not an exact multiple of `PAGE_SIZE`. -/
def pager_open_spec (f : FileS) : Except DbError PagerS :=
  if f.len % PAGE_SIZE = 0 then Except.ok (pager_open f)
  else Except.error DbError.corruption

/-- `get_page`: return the cached buffer; on a miss allocate a zeroed
buffer, fill it from the file iff the page is within
`file_length / PAGE_SIZE`, cache it, and bump the high-water `num_pages`.
The C cache is the fixed array `void* pages[TABLE_MAX_PAGES]` and
`get_page` contains no bound check, so `page_num < TABLE_MAX_PAGES` is a
validity precondition (an index at or past 100 is an out-of-bounds array
access in C, with no defined behavior to model); `db.c` itself only ever
passes the root page number 0, and every theorem below stays within the
bound. -/
def get_page (p : PagerS) (page_num : Nat) : PagerS × Page :=
  match p.pages page_num with
  | some pg => (p, pg)
  | none =>
    let pg :=
      if page_num < p.file_length / PAGE_SIZE then
        p.file.pages.getD page_num zeroPage
      else zeroPage
    ({ p with
        pages := fun n => if n = page_num then some pg else p.pages n
        num_pages :=
          if p.num_pages ≤ page_num then page_num + 1 else p.num_pages },
     pg)

/-- Store a (mutated-in-place) buffer back into the cache slot it came
from; this models the C code writing through the pointer returned by
`get_page`. -/
def cache_set (p : PagerS) (page_num : Nat) (pg : Page) : PagerS :=
  { p with pages := fun n => if n = page_num then some pg else p.pages n }

/-- Write one page of the file at its offset, extending the file (with
zero pages for any hole) if it ends before that offset. -/
def file_write_page (f : FileS) (n : Nat) (pg : Page) : FileS :=
  { len := max f.len ((n + 1) * PAGE_SIZE)
    pages :=
      if n < f.pages.length then f.pages.set n pg
      else f.pages ++ List.replicate (n - f.pages.length) zeroPage ++ [pg] }

/-- `pager_flush`: no-op on an empty cache slot, otherwise seek to
`page_num * PAGE_SIZE` and write the full page. -/
def pager_flush (p : PagerS) (page_num : Nat) : PagerS :=
  match p.pages page_num with
  | none => p
  | some pg => { p with file := file_write_page p.file page_num pg }

/-- The flush loop of `db_close`: flush pages `0, 1, …, n-1` in ascending
order. -/
def flush_range (p : PagerS) : Nat → PagerS
  | 0 => p
  | n + 1 => pager_flush (flush_range p n) n

/-! ## Node initialization -/

/-- `initialize_leaf_node`: set the node-type byte to `NODE_LEAF` and the
cell count to 0.  The is-root byte and parent pointer are not touched (on a
fresh page they stay 0). -/
def initialize_leaf_node (pg : Page) : Page :=
  { pg with node_type := NodeTypeE.leaf, cells := [] }

/-! ## Table open / close -/

/-- `db_open`: open the pager, set the root page number to 0, and if the
file held no pages, materialize page 0 and initialize it as an empty
leaf. -/
def db_open (f : FileS) : TableS :=
  let pager := pager_open f
  let table : TableS := { pager := pager, root_page_num := 0 }
  if pager.num_pages = 0 then
    let gp := get_page pager 0
    { table with pager := cache_set gp.1 0 (initialize_leaf_node gp.2) }
  else table

/-- `db_close`: flush every cached page among `0 … num_pages - 1` back to
the file; the resulting file contents are the observable output (the C
code then frees the buffers and the descriptor). -/
def db_close (t : TableS) : FileS :=
  (flush_range t.pager t.pager.num_pages).file

/-- Close followed by open on the file just written. -/
def db_reopen (t : TableS) : TableS :=
  db_open (db_close t)

/-! ## Search (`leaf_node_find`, `table_find`) -/

def pageKeys (pg : Page) : List Nat :=
  pg.cells.map (fun c => c.1)

/-- The binary-search loop body of `leaf_node_find`.  The C loop runs
`while (one_past_max_index != min_index)`; under the loop invariant
`min_index ≤ one_past_max_index` (true from initialization on) that test
is `min_index < one_past_max_index`, written here as the negation of
`one_past ≤ min_index`.  `fuel` bounds the iteration count: each iteration
strictly shrinks `one_past - min_index`, so any
`fuel > one_past - min_index` is enough; the 0-fuel fallback is never
reached at the call site. -/
def leaf_find_loop (keys : List Nat) (key : Nat) :
    Nat → Nat → Nat → Nat
  | min_index, _, 0 => min_index
  | min_index, one_past, fuel + 1 =>
    if one_past ≤ min_index then min_index
    else
      let index := (min_index + one_past) / 2
      let key_at_index := keys.getD index 0
      if key = key_at_index then index
      else if key < key_at_index then
        leaf_find_loop keys key min_index index fuel
      else
        leaf_find_loop keys key (index + 1) one_past fuel

/-- `leaf_node_find`: binary-search the leaf's keys, returning a cursor on
that page at the resulting cell index. -/
def leaf_node_find (t : TableS) (page_num key : Nat) : TableS × CursorS :=
  let gp := get_page t.pager page_num
  let num_cells := gp.2.cells.length
  let cell :=
    leaf_find_loop (pageKeys gp.2) key 0 num_cells (num_cells + 1)
  ({ t with pager := gp.1 },
   { page_num := page_num, cell_num := cell, end_of_table := false })

/-- The cell index `leaf_node_find` computes on a given page: the
binary-search loop run over the page's keys with `min_index = 0`,
`one_past_max_index = num_cells` (and enough fuel). -/
def find_pos (pg : Page) (key : Nat) : Nat :=
  leaf_find_loop (pageKeys pg) key 0 pg.cells.length (pg.cells.length + 1)

/-- `table_find`: read the root page; if it is a leaf, search it.  The
internal-node branch is `exit(EXIT_FAILURE)` in the source ("Need to
implement searching internal nodes"), modelled as `none`. -/
def table_find (t : TableS) (key : Nat) : Option (TableS × CursorS) :=
  let gp := get_page t.pager t.root_page_num
  let t1 : TableS := { t with pager := gp.1 }
  match gp.2.node_type with
  | NodeTypeE.leaf => some (leaf_node_find t1 t.root_page_num key)
  | NodeTypeE.internal => none

/-! ## Cursor operations and the `select` loop -/

def dummyRow : RowT := { id := 0, username := "", email := "" }

def dummyCell : Cell := (0, dummyRow)

/-- `table_start`: position at cell 0 of the leaf found for key 0;
`end_of_table` is true iff that leaf is empty. -/
def table_start (t : TableS) : Option (TableS × CursorS) :=
  match table_find t 0 with
  | none => none
  | some tc =>
    let gp := get_page tc.1.pager tc.2.page_num
    some ({ tc.1 with pager := gp.1 },
          { tc.2 with end_of_table := gp.2.cells.length = 0 })

/-- `cursor_value`: the row stored at the cursor's cell.  An out-of-range
cell index reads bytes past the last cell; `getD`'s default stands in for
those bytes. -/
def cursor_value (t : TableS) (c : CursorS) : TableS × RowT :=
  let gp := get_page t.pager c.page_num
  ({ t with pager := gp.1 }, (gp.2.cells.getD c.cell_num dummyCell).2)

/-- `cursor_advance`: increment the cell index; at or past the leaf's cell
count, set `end_of_table`. -/
def cursor_advance (t : TableS) (c : CursorS) : TableS × CursorS :=
  let gp := get_page t.pager c.page_num
  let c1 : CursorS := { c with cell_num := c.cell_num + 1 }
  ({ t with pager := gp.1 },
   if gp.2.cells.length ≤ c1.cell_num then { c1 with end_of_table := true }
   else c1)

/-- The `select` loop: read and advance until `end_of_table`.  `fuel`
bounds the iteration count; the loop's variant is
`num_cells - cell_num + 1`, so any fuel at least that large gives the C
behavior. -/
def select_loop (t : TableS) (c : CursorS) : Nat → TableS × List RowT
  | 0 => (t, [])
  | fuel + 1 =>
    if c.end_of_table then (t, [])
    else
      let tv := cursor_value t c
      let tc := cursor_advance tv.1 c
      let rest := select_loop tc.1 tc.2 fuel
      (rest.1, tv.2 :: rest.2)

/-- The `select` command: `table_start`, then the read/advance loop. -/
def do_scan (t : TableS) : Option (TableS × List RowT) :=
  match table_start t with
  | none => none
  | some tc =>
    let gp := get_page tc.1.pager tc.2.page_num
    select_loop { tc.1 with pager := gp.1 } tc.2 (gp.2.cells.length + 1)

/-- The rows a `select` prints (ignoring the final pager state). -/
def scan_rows (t : TableS) : Option (List RowT) :=
  (do_scan t).map (fun x => x.2)

/-! ## Insert (`leaf_node_insert` and the `insert` command) -/

inductive InsertResult where
  | executed
  | tableFull
  | duplicateKey
  | abortInternal
deriving DecidableEq, Repr

/-- `leaf_node_insert`: shift the cells at or after the cursor's index one
slot right and write the new key/row there, incrementing the count.  For a
cursor produced by `leaf_node_find` the index is at most the cell count,
and the effect is insertion at that position. -/
def leaf_node_insert (t : TableS) (c : CursorS) (key : Nat) (r : RowT) :
    TableS :=
  let gp := get_page t.pager c.page_num
  let cells' :=
    gp.2.cells.take c.cell_num ++ (key, r) :: gp.2.cells.drop c.cell_num
  { t with pager := cache_set gp.1 c.page_num { gp.2 with cells := cells' } }

/-- The `insert` command from `main`: read the root's cell count, reject a
full table, locate the key, reject a duplicate, else insert at the found
position. -/
def do_insert (t : TableS) (r : RowT) : TableS × InsertResult :=
  let gp := get_page t.pager t.root_page_num
  let t1 : TableS := { t with pager := gp.1 }
  let num_cells := gp.2.cells.length
  if LEAF_NODE_MAX_CELLS ≤ num_cells then (t1, InsertResult.tableFull)
  else
    match table_find t1 r.id with
    | none => (t1, InsertResult.abortInternal)
    | some tc =>
      if tc.2.cell_num < num_cells ∧
          (gp.2.cells.getD tc.2.cell_num dummyCell).1 = r.id then
        (tc.1, InsertResult.duplicateKey)
      else
        (leaf_node_insert tc.1 tc.2 r.id r, InsertResult.executed)

/-- Run a sequence of `insert` commands, returning the final state and the
rows whose insert reported `Executed.`. -/
def run_inserts (t : TableS) (rs : List RowT) : TableS × List RowT :=
  match rs with
  | [] => (t, [])
  | r :: rest =>
    let step := do_insert t r
    let tail := run_inserts step.1 rest
    (tail.1,
     if step.2 = InsertResult.executed then r :: tail.2 else tail.2)

/-! ## Observations used by the claims -/

/-- What `get_page(pager, 0)` would hand the caller: the decoded contents
of page 0 (cached buffer, or the file's page 0 / a zeroed page). -/
def page0_view (t : TableS) : Page :=
  (get_page t.pager 0).2

def cellCount (t : TableS) : Nat :=
  (page0_view t).cells.length

/-- Total cells over every cached page below the high-water page count. -/
def total_cells (t : TableS) : Nat :=
  (List.range t.pager.num_pages).foldl
    (fun a n =>
      a + match t.pager.pages n with
          | some pg => pg.cells.length
          | none => 0)
    0

/-- Number of cached pages, below the high-water count, whose node type is
leaf. -/
def leaf_page_count (t : TableS) : Nat :=
  (List.range t.pager.num_pages).foldl
    (fun a n =>
      a + match t.pager.pages n with
          | some pg => if pg.node_type = NodeTypeE.leaf then 1 else 0
          | none => 0)
    0

/-- States reachable through the table's lifecycle: open on an empty file,
then any sequence of `insert` commands, `select` commands, and
close-then-reopen cycles. -/
inductive Reach : TableS → Prop where
  | base : Reach (db_open emptyFile)
  | insert : ∀ t r, Reach t → Reach (do_insert t r).1
  | scan : ∀ t t' rows, Reach t → do_scan t = some (t', rows) → Reach t'
  | reopen : ∀ t, Reach t → Reach (db_reopen t)

/-- A one-page table holding exactly the given page, used to state the
leaf-search claim over arbitrary leaf contents. -/
def leaf_table (pg : Page) : TableS :=
  { pager :=
      { file := emptyFile
        file_length := 0
        num_pages := 1
        pages := fun n => if n = 0 then some pg else none }
    root_page_num := 0 }

/-- The state with page 0 pulled into the cache (every operation begins by
calling `get_page` on the root page, which has exactly this effect). -/
def materialize (t : TableS) : TableS :=
  { t with pager := (get_page t.pager t.root_page_num).1 }

/-- The invariant maintained by every reachable table state. -/
structure TableInv (t : TableS) : Prop where
  root0 : t.root_page_num = 0
  leafP : (page0_view t).node_type = NodeTypeE.leaf
  notRoot : (page0_view t).is_root = false
  sorted : List.Sorted (· < ·) (pageKeys (page0_view t))
  keysId : ∀ c ∈ (page0_view t).cells, c.1 = c.2.id
  bound : (page0_view t).cells.length ≤ LEAF_NODE_MAX_CELLS
  others : ∀ n, n ≠ 0 → t.pager.pages n = none
  npages : t.pager.num_pages = 1
  flen : t.pager.file_length = t.pager.file.len
  fpages : t.pager.file.pages.length = t.pager.file.len / PAGE_SIZE
  flen01 : t.pager.file.len = 0 ∨ t.pager.file.len = PAGE_SIZE

/-! ## Concrete inputs used by witnesses and counterexamples -/

def wrow (i : Nat) : RowT :=
  { id := i, username := "u", email := "e" }

def wrows13 : List RowT :=
  (List.range 13).map (fun i => wrow (i + 1))

/-- The table after 13 successful inserts: the single leaf is full. -/
def t13 : TableS :=
  (run_inserts (db_open emptyFile) wrows13).1

/-- The table after inserting ids 3, 1, 2. -/
def t3w : TableS :=
  (run_inserts (db_open emptyFile) [wrow 3, wrow 1, wrow 2]).1

/-- A three-cell sorted leaf page, for the leaf-search witness. -/
def pgW : Page :=
  { node_type := NodeTypeE.leaf
    is_root := false
    parent := 0
    cells := [(2, wrow 2), (5, wrow 5), (9, wrow 9)] }

/-- A 5000-byte file: one full page plus a 904-byte trailing fragment. -/
def fileW : FileS := { len := 5000, pages := [zeroPage] }

/-! ## List helpers -/

theorem getD_mem_of_lt {α : Type} (l : List α) (i : Nat) (d : α)
    (h : i < l.length) : l.getD i d ∈ l := by
  rw [List.getD_eq_getElem l d h]
  exact List.getElem_mem h

theorem mem_getD {α : Type} (l : List α) (d : α) {x : α} (hx : x ∈ l) :
    ∃ j, j < l.length ∧ l.getD j d = x := by
  rcases List.mem_iff_get.mp hx with ⟨n, hn⟩
  exact ⟨n.1, n.2, by rw [List.getD_eq_getElem l d n.2]; simpa using hn⟩

theorem mem_take_getD {α : Type} (d : α) :
    ∀ (l : List α) (R : Nat) (x : α), x ∈ l.take R →
      ∃ j, j < R ∧ j < l.length ∧ l.getD j d = x := by
  intro l
  induction l with
  | nil => intro R x hx; simp at hx
  | cons a tl ih =>
    intro R x hx
    cases R with
    | zero => simp at hx
    | succ S =>
      simp only [List.take_succ_cons, List.mem_cons] at hx
      rcases hx with rfl | hx
      · exact ⟨0, Nat.succ_pos _, Nat.succ_pos _, rfl⟩
      · rcases ih S x hx with ⟨j, hj1, hj2, hj3⟩
        exact ⟨j + 1, Nat.succ_lt_succ hj1, Nat.succ_lt_succ hj2, hj3⟩

theorem mem_drop_getD {α : Type} (d : α) :
    ∀ (l : List α) (R : Nat) (x : α), x ∈ l.drop R →
      ∃ j, R ≤ j ∧ j < l.length ∧ l.getD j d = x := by
  intro l
  induction l with
  | nil => intro R x hx; simp at hx
  | cons a tl ih =>
    intro R x hx
    cases R with
    | zero =>
      rcases mem_getD (a :: tl) d (by simpa using hx) with ⟨j, hj1, hj2⟩
      exact ⟨j, Nat.zero_le _, hj1, hj2⟩
    | succ S =>
      rcases ih S x (by simpa using hx) with ⟨j, hj1, hj2, hj3⟩
      exact ⟨j + 1, Nat.succ_le_succ hj1, Nat.succ_lt_succ hj2, hj3⟩

theorem sorted_getD_lt {l : List Nat} (hs : List.Sorted (· < ·) l)
    {i j : Nat} (hij : i < j) (hj : j < l.length) :
    l.getD i 0 < l.getD j 0 := by
  rw [List.getD_eq_getElem l 0 (Nat.lt_trans hij hj), List.getD_eq_getElem l 0 hj]
  have := List.pairwise_iff_get.mp hs ⟨i, Nat.lt_trans hij hj⟩ ⟨j, hj⟩ hij
  simpa using this

/-! ## Binary-search loop: `leaf_find_loop` returns the lower bound -/

theorem leaf_find_loop_spec (keys : List Nat) (key : Nat)
    (hs : List.Sorted (· < ·) keys) :
    ∀ (fuel min_index one_past : Nat),
      one_past ≤ keys.length →
      min_index ≤ one_past →
      one_past - min_index < fuel →
      (∀ j, j < min_index → keys.getD j 0 < key) →
      (∀ j, one_past ≤ j → j < keys.length → key ≤ keys.getD j 0) →
      leaf_find_loop keys key min_index one_past fuel ≤ keys.length ∧
      (∀ j, j < leaf_find_loop keys key min_index one_past fuel →
        keys.getD j 0 < key) ∧
      (leaf_find_loop keys key min_index one_past fuel < keys.length →
        key ≤ keys.getD (leaf_find_loop keys key min_index one_past fuel) 0) := by
  intro fuel
  induction fuel with
  | zero => intro min_index one_past _ _ hf; omega
  | succ fuel ih =>
    intro min_index one_past hln hmo hf hlow hhigh
    by_cases hstop : one_past ≤ min_index
    · simp only [leaf_find_loop, if_pos hstop]
      refine ⟨by omega, hlow, fun hlt => hhigh _ (by omega) hlt⟩
    · have hmlt : min_index < one_past := by omega
      simp only [leaf_find_loop, if_neg hstop]
      set index := (min_index + one_past) / 2 with hidx
      have hi1 : min_index ≤ index := by omega
      have hi2 : index < one_past := by omega
      have hi3 : index < keys.length := by omega
      by_cases heq : key = keys.getD index 0
      · simp only [if_pos heq]
        refine ⟨by omega, ?_, fun _ => le_of_eq heq⟩
        intro j hj
        calc keys.getD j 0 < keys.getD index 0 := sorted_getD_lt hs hj hi3
          _ = key := heq.symm
      · simp only [if_neg heq]
        by_cases hlt : key < keys.getD index 0
        · simp only [if_pos hlt]
          refine ih min_index index (by omega) hi1 (by omega) hlow ?_
          intro j hj1 hj2
          rcases Nat.eq_or_lt_of_le hj1 with rfl | hj1
          · exact le_of_lt hlt
          · exact le_of_lt (lt_trans hlt (sorted_getD_lt hs hj1 hj2))
        · simp only [if_neg hlt]
          have hgt : keys.getD index 0 < key := by omega
          refine ih (index + 1) one_past hln (by omega) (by omega) ?_ hhigh
          intro j hj
          rcases Nat.lt_succ_iff_lt_or_eq.mp hj with hj | rfl
          · exact lt_trans (sorted_getD_lt hs hj hi3) hgt
          · exact hgt

/-! ## Page-cache lemmas -/

theorem get_page_cached {p : PagerS} {n : Nat} {pg : Page}
    (h : p.pages n = some pg) : get_page p n = (p, pg) := by
  simp [get_page, h]

theorem get_page_pages_self (p : PagerS) (n : Nat) :
    ((get_page p n).1).pages n = some ((get_page p n).2) := by
  unfold get_page
  cases h : p.pages n with
  | some pg => simp [h]
  | none => simp [h]

theorem get_page_pages_other (p : PagerS) (n m : Nat) (hm : m ≠ n) :
    ((get_page p n).1).pages m = p.pages m := by
  unfold get_page
  cases h : p.pages n with
  | some pg => simp [h]
  | none => simp [h, hm]

theorem get_page_file (p : PagerS) (n : Nat) :
    ((get_page p n).1).file = p.file ∧
    ((get_page p n).1).file_length = p.file_length := by
  unfold get_page
  cases h : p.pages n with
  | some pg => simp [h]
  | none => simp [h]

theorem get_page_num_pages_one (p : PagerS) (h : p.num_pages = 1) :
    ((get_page p 0).1).num_pages = 1 := by
  unfold get_page
  cases hc : p.pages 0 with
  | some pg => simpa [hc] using h
  | none => simp [hc, h]

theorem materialize_root0 (t : TableS) :
    (materialize t).root_page_num = t.root_page_num := rfl

theorem materialize_pages0 (t : TableS) (h : t.root_page_num = 0) :
    (materialize t).pager.pages 0 = some (page0_view t) := by
  unfold materialize page0_view
  rw [h]
  exact get_page_pages_self t.pager 0

theorem view_materialize (t : TableS) (h : t.root_page_num = 0) :
    page0_view (materialize t) = page0_view t := by
  unfold page0_view
  rw [get_page_cached (materialize_pages0 t h)]
  rfl

theorem materialize_of_cached {t : TableS} {pg : Page}
    (h : t.root_page_num = 0) (hc : t.pager.pages 0 = some pg) :
    materialize t = t := by
  obtain ⟨p, rn⟩ := t
  simp only at h hc
  subst h
  simp [materialize, get_page_cached hc]

theorem view_of_cached {t : TableS} {pg : Page}
    (hc : t.pager.pages 0 = some pg) : page0_view t = pg := by
  unfold page0_view
  rw [get_page_cached hc]

theorem materialize_inv {t : TableS} (hInv : TableInv t) :
    TableInv (materialize t) := by
  have hv := view_materialize t hInv.root0
  refine ⟨hInv.root0, ?_, ?_, ?_, ?_, ?_, ?_, ?_, ?_, ?_, ?_⟩
  · rw [hv]; exact hInv.leafP
  · rw [hv]; exact hInv.notRoot
  · rw [hv]; exact hInv.sorted
  · rw [hv]; exact hInv.keysId
  · rw [hv]; exact hInv.bound
  · intro n hn
    unfold materialize
    rw [hInv.root0]
    rw [get_page_pages_other t.pager 0 n hn]
    exact hInv.others n hn
  · unfold materialize
    rw [hInv.root0]
    exact get_page_num_pages_one t.pager hInv.npages
  · unfold materialize
    rw [hInv.root0]
    rw [(get_page_file t.pager 0).2, (get_page_file t.pager 0).1]
    exact hInv.flen
  · unfold materialize
    rw [hInv.root0, (get_page_file t.pager 0).1]
    exact hInv.fpages
  · unfold materialize
    rw [hInv.root0, (get_page_file t.pager 0).1]
    exact hInv.flen01

/-! ## Consequences of the search lemma for `find_pos` -/

theorem pageKeys_length (pg : Page) : (pageKeys pg).length = pg.cells.length := by
  simp [pageKeys]

theorem cells_getD_fst (pg : Page) (i : Nat) (h : i < pg.cells.length) :
    (pg.cells.getD i dummyCell).1 = (pageKeys pg).getD i 0 := by
  rw [List.getD_eq_getElem pg.cells dummyCell h,
    List.getD_eq_getElem (pageKeys pg) 0 (by rw [pageKeys_length]; exact h)]
  simp [pageKeys]

theorem find_pos_spec (pg : Page) (key : Nat)
    (hs : List.Sorted (· < ·) (pageKeys pg)) :
    find_pos pg key ≤ pg.cells.length ∧
    (∀ j, j < find_pos pg key → (pageKeys pg).getD j 0 < key) ∧
    (find_pos pg key < pg.cells.length →
      key ≤ (pageKeys pg).getD (find_pos pg key) 0) := by
  have hlen := pageKeys_length pg
  have h := leaf_find_loop_spec (pageKeys pg) key hs (pg.cells.length + 1) 0
    pg.cells.length (by omega) (by omega) (by omega)
    (by intro j hj; omega)
    (by intro j h1 h2; omega)
  unfold find_pos
  exact ⟨by omega, h.2.1, by intro hlt; exact h.2.2 (by omega)⟩

theorem find_pos_zero (pg : Page)
    (hs : List.Sorted (· < ·) (pageKeys pg)) : find_pos pg 0 = 0 := by
  rcases find_pos_spec pg 0 hs with ⟨_, h2, _⟩
  by_contra hne
  exact absurd (h2 0 (by omega)) (by omega)

theorem find_pos_mem (pg : Page) (k : Nat)
    (hs : List.Sorted (· < ·) (pageKeys pg)) (hmem : k ∈ pageKeys pg) :
    find_pos pg k < pg.cells.length ∧
    (pageKeys pg).getD (find_pos pg k) 0 = k := by
  have hlen := pageKeys_length pg
  rcases find_pos_spec pg k hs with ⟨h1, h2, h3⟩
  rcases mem_getD (pageKeys pg) 0 hmem with ⟨j, hj1, hj2⟩
  have hjR : find_pos pg k ≤ j := by
    by_contra hlt
    have := h2 j (by omega)
    omega
  have hR : find_pos pg k < pg.cells.length := by omega
  refine ⟨hR, ?_⟩
  have hge := h3 hR
  rcases Nat.eq_or_lt_of_le hjR with rfl | hjlt
  · exact hj2
  · have := sorted_getD_lt hs hjlt (by omega)
    omega

theorem find_pos_not_mem (pg : Page) (k : Nat)
    (hs : List.Sorted (· < ·) (pageKeys pg))
    (h : ¬(find_pos pg k < pg.cells.length ∧
      (pageKeys pg).getD (find_pos pg k) 0 = k)) : k ∉ pageKeys pg := by
  intro hmem
  exact h (find_pos_mem pg k hs hmem)

/-! ## Characterizations of `table_find`, `leaf_node_insert` -/

theorem table_find_char (t : TableS) (key : Nat)
    (hroot : t.root_page_num = 0)
    (hleaf : (page0_view t).node_type = NodeTypeE.leaf) :
    table_find t key =
      some (materialize t,
        { page_num := 0
          cell_num := find_pos (page0_view t) key
          end_of_table := false }) := by
  have hself := get_page_pages_self t.pager 0
  have hcc := get_page_cached hself
  have hleaf2 : (get_page t.pager 0).2.node_type = NodeTypeE.leaf := hleaf
  simp only [table_find, leaf_node_find, materialize, page0_view, find_pos,
    hroot, hcc, hleaf2]

theorem leaf_node_insert_char (t : TableS) (c : CursorS) (key : Nat)
    (r : RowT) (pg : Page) (hc : t.pager.pages c.page_num = some pg) :
    leaf_node_insert t c key r =
      { t with
          pager := cache_set t.pager c.page_num
            { pg with
                cells :=
                  pg.cells.take c.cell_num ++
                    (key, r) :: pg.cells.drop c.cell_num } } := by
  unfold leaf_node_insert
  rw [get_page_cached hc]

theorem do_insert_full (t : TableS) (r : RowT)
    (hroot : t.root_page_num = 0)
    (hfull : LEAF_NODE_MAX_CELLS ≤ (page0_view t).cells.length) :
    do_insert t r = (materialize t, InsertResult.tableFull) := by
  have hfull2 : LEAF_NODE_MAX_CELLS ≤ (get_page t.pager 0).2.cells.length := hfull
  simp [do_insert, materialize, hroot, hfull2]

theorem do_insert_dup (t : TableS) (r : RowT)
    (hroot : t.root_page_num = 0)
    (hleaf : (page0_view t).node_type = NodeTypeE.leaf)
    (hlow : (page0_view t).cells.length < LEAF_NODE_MAX_CELLS)
    (hd1 : find_pos (page0_view t) r.id < (page0_view t).cells.length)
    (hd2 : (pageKeys (page0_view t)).getD (find_pos (page0_view t) r.id) 0 = r.id) :
    do_insert t r = (materialize t, InsertResult.duplicateKey) := by
  have hself := get_page_pages_self t.pager 0
  have hcc := get_page_cached hself
  have hleaf2 : (get_page t.pager 0).2.node_type = NodeTypeE.leaf := hleaf
  have hnot : ¬ (LEAF_NODE_MAX_CELLS ≤ (get_page t.pager 0).2.cells.length) := by
    exact not_le.mpr hlow
  have hd1' : find_pos (get_page t.pager 0).2 r.id < (get_page t.pager 0).2.cells.length := hd1
  have hd2' : ((get_page t.pager 0).2.cells.getD (find_pos (get_page t.pager 0).2 r.id) dummyCell).1 = r.id := by
    rw [cells_getD_fst (get_page t.pager 0).2 _ hd1']
    exact hd2
  simp only [do_insert, table_find, leaf_node_find, materialize, page0_view,
    find_pos, hroot, hcc, hleaf2] at hd1' hd2' ⊢
  rw [if_neg hnot, if_pos (And.intro hd1' hd2')]

theorem do_insert_exec (t : TableS) (r : RowT)
    (hroot : t.root_page_num = 0)
    (hleaf : (page0_view t).node_type = NodeTypeE.leaf)
    (hlow : (page0_view t).cells.length < LEAF_NODE_MAX_CELLS)
    (hnd : ¬(find_pos (page0_view t) r.id < (page0_view t).cells.length ∧
      ((page0_view t).cells.getD (find_pos (page0_view t) r.id) dummyCell).1 = r.id)) :
    do_insert t r =
      ({ materialize t with
          pager := cache_set (materialize t).pager 0
            { page0_view t with
                cells :=
                  (page0_view t).cells.take (find_pos (page0_view t) r.id) ++
                    (r.id, r) ::
                      (page0_view t).cells.drop (find_pos (page0_view t) r.id) } },
       InsertResult.executed) := by
  have hself := get_page_pages_self t.pager 0
  have hcc := get_page_cached hself
  have hleaf2 : (get_page t.pager 0).2.node_type = NodeTypeE.leaf := hleaf
  have hnot : ¬ (LEAF_NODE_MAX_CELLS ≤ (get_page t.pager 0).2.cells.length) := by
    exact not_le.mpr hlow
  have hnd' : ¬(find_pos (get_page t.pager 0).2 r.id < (get_page t.pager 0).2.cells.length ∧
      ((get_page t.pager 0).2.cells.getD (find_pos (get_page t.pager 0).2 r.id) dummyCell).1 = r.id) := hnd
  simp only [do_insert, table_find, leaf_node_find, leaf_node_insert,
    materialize, page0_view, find_pos, hroot, hcc, hleaf2] at hnd' ⊢
  rw [if_neg hnot, if_neg hnd']

/-! ## Sorted insertion -/

theorem sorted_insert_at (keys : List Nat) (k R : Nat)
    (hs : List.Sorted (· < ·) keys) (hR : R ≤ keys.length)
    (hlow : ∀ j, j < R → keys.getD j 0 < k)
    (hhigh : ∀ j, R ≤ j → j < keys.length → k < keys.getD j 0) :
    List.Sorted (· < ·) (keys.take R ++ k :: keys.drop R) := by
  have hp : List.Pairwise (· < ·) keys := hs
  refine List.pairwise_append.mpr ⟨hp.sublist (List.take_sublist R keys), ?_, ?_⟩
  · refine List.pairwise_cons.mpr ⟨?_, hp.sublist (List.drop_sublist R keys)⟩
    intro b hb
    rcases mem_drop_getD 0 keys R b hb with ⟨j, hj1, hj2, hj3⟩
    rw [← hj3]
    exact hhigh j hj1 hj2
  · intro a ha b hb
    rcases mem_take_getD 0 keys R a ha with ⟨j, hj1, hj2, hj3⟩
    have halt : a < k := by rw [← hj3]; exact hlow j hj1
    rcases List.mem_cons.mp hb with rfl | hb
    · exact halt
    · rcases mem_drop_getD 0 keys R b hb with ⟨i, hi1, hi2, hi3⟩
      have : k < b := by rw [← hi3]; exact hhigh i hi1 hi2
      omega

theorem insert_at_perm {α : Type} (l : List α) (x : α) (R : Nat) :
    List.Perm (l.take R ++ x :: l.drop R) (x :: l) := by
  have h := @List.perm_middle _ x (l.take R) (l.drop R)
  rwa [List.take_append_drop] at h

theorem insert_at_length {α : Type} (l : List α) (x : α) (R : Nat)
    (hR : R ≤ l.length) :
    (l.take R ++ x :: l.drop R).length = l.length + 1 := by
  simp [List.length_take, List.length_drop]
  omega

/-! ## The three outcomes of an `insert` command -/

theorem do_insert_trichotomy (t : TableS) (r : RowT) (hInv : TableInv t) :
    (LEAF_NODE_MAX_CELLS ≤ (page0_view t).cells.length ∧
      do_insert t r = (materialize t, InsertResult.tableFull)) ∨
    ((page0_view t).cells.length < LEAF_NODE_MAX_CELLS ∧
      r.id ∈ pageKeys (page0_view t) ∧
      do_insert t r = (materialize t, InsertResult.duplicateKey)) ∨
    ((page0_view t).cells.length < LEAF_NODE_MAX_CELLS ∧
      r.id ∉ pageKeys (page0_view t) ∧
      do_insert t r =
        ({ materialize t with
            pager := cache_set (materialize t).pager 0
              { page0_view t with
                  cells :=
                    (page0_view t).cells.take (find_pos (page0_view t) r.id) ++
                      (r.id, r) ::
                        (page0_view t).cells.drop
                          (find_pos (page0_view t) r.id) } },
         InsertResult.executed)) := by
  by_cases hfull : LEAF_NODE_MAX_CELLS ≤ (page0_view t).cells.length
  · exact Or.inl ⟨hfull, do_insert_full t r hInv.root0 hfull⟩
  · have hlow : (page0_view t).cells.length < LEAF_NODE_MAX_CELLS := by omega
    by_cases hdup : find_pos (page0_view t) r.id < (page0_view t).cells.length ∧
        ((page0_view t).cells.getD (find_pos (page0_view t) r.id) dummyCell).1 = r.id
    · refine Or.inr (Or.inl ⟨hlow, ?_, ?_⟩)
      · have hk : (pageKeys (page0_view t)).getD
            (find_pos (page0_view t) r.id) 0 = r.id := by
          rw [← cells_getD_fst _ _ hdup.1]; exact hdup.2
        rw [← hk]
        exact getD_mem_of_lt _ _ _ (by rw [pageKeys_length]; exact hdup.1)
      · exact do_insert_dup t r hInv.root0 hInv.leafP hlow hdup.1
          (by rw [← cells_getD_fst _ _ hdup.1]; exact hdup.2)
    · refine Or.inr (Or.inr ⟨hlow, ?_, do_insert_exec t r hInv.root0 hInv.leafP hlow hdup⟩)
      apply find_pos_not_mem _ _ hInv.sorted
      intro hcon
      exact hdup ⟨hcon.1, by rw [cells_getD_fst _ _ hcon.1]; exact hcon.2⟩

theorem view_cache_set0 (t : TableS) (p : PagerS) (pg : Page) :
    page0_view { t with pager := cache_set p 0 pg } = pg := by
  simp [page0_view, get_page, cache_set]

theorem cache_set_pages_other (p : PagerS) (pg : Page) (n : Nat) (h : n ≠ 0) :
    (cache_set p 0 pg).pages n = p.pages n := by
  simp [cache_set, h]

/-! ## Insert preserves the invariant -/

theorem find_pos_strict_high (pg : Page) (k : Nat)
    (hs : List.Sorted (· < ·) (pageKeys pg)) (hnm : k ∉ pageKeys pg) :
    ∀ j, find_pos pg k ≤ j → j < (pageKeys pg).length →
      k < (pageKeys pg).getD j 0 := by
  rcases find_pos_spec pg k hs with ⟨h1, h2, h3⟩
  have hlen := pageKeys_length pg
  intro j hj1 hj2
  have hRlt : find_pos pg k < pg.cells.length := by omega
  have hge : k ≤ (pageKeys pg).getD (find_pos pg k) 0 := h3 hRlt
  have hne : (pageKeys pg).getD (find_pos pg k) 0 ≠ k := by
    intro he
    exact hnm (by rw [← he]; exact getD_mem_of_lt _ _ _ (by omega))
  rcases Nat.eq_or_lt_of_le hj1 with rfl | hj1
  · omega
  · have := sorted_getD_lt hs hj1 hj2
    omega

theorem inv_insert_exec_page (t : TableS) (r : RowT) (hInv : TableInv t)
    (hnm : r.id ∉ pageKeys (page0_view t))
    (hlow : (page0_view t).cells.length < LEAF_NODE_MAX_CELLS) :
    let pg := page0_view t
    let R := find_pos pg r.id
    let pg' : Page :=
      { pg with cells := pg.cells.take R ++ (r.id, r) :: pg.cells.drop R }
    List.Sorted (· < ·) (pageKeys pg') ∧
    (∀ c ∈ pg'.cells, c.1 = c.2.id) ∧
    pg'.cells.length ≤ LEAF_NODE_MAX_CELLS ∧
    List.Perm pg'.cells ((r.id, r) :: pg.cells) := by
  intro pg R pg'
  have hs := hInv.sorted
  have hlen := pageKeys_length pg
  rcases find_pos_spec pg r.id hs with ⟨h1, h2, h3⟩
  have hkeys : pageKeys pg' =
      (pageKeys pg).take R ++ r.id :: (pageKeys pg).drop R := by
    simp [pageKeys, pg', List.map_take, List.map_drop]
  constructor
  · rw [hkeys]
    exact sorted_insert_at (pageKeys pg) r.id R hs (by omega) h2
      (find_pos_strict_high pg r.id hs hnm)
  constructor
  · intro c hc
    rcases List.mem_append.mp hc with hc | hc
    · exact hInv.keysId c (List.mem_of_mem_take hc)
    · rcases List.mem_cons.mp hc with rfl | hc
      · rfl
      · exact hInv.keysId c (List.mem_of_mem_drop hc)
  constructor
  · have hlow2 : pg.cells.length < LEAF_NODE_MAX_CELLS := hlow
    have := insert_at_length pg.cells (r.id, r) R (by omega)
    simp only [pg']
    omega
  · exact insert_at_perm pg.cells (r.id, r) R

theorem inv_insert (t : TableS) (r : RowT) (hInv : TableInv t) :
    TableInv (do_insert t r).1 := by
  rcases do_insert_trichotomy t r hInv with ⟨_, heq⟩ | ⟨_, _, heq⟩ | ⟨hlow, hnm, heq⟩
  · rw [heq]; exact materialize_inv hInv
  · rw [heq]; exact materialize_inv hInv
  · rw [heq]
    have hmInv := materialize_inv hInv
    rcases inv_insert_exec_page t r hInv hnm hlow with ⟨hs', hk', hb', _⟩
    refine ⟨hmInv.root0, ?_, ?_, ?_, ?_, ?_, ?_, ?_, ?_, ?_, ?_⟩
    · rw [view_cache_set0]; exact hInv.leafP
    · rw [view_cache_set0]; exact hInv.notRoot
    · rw [view_cache_set0]; exact hs'
    · rw [view_cache_set0]; exact hk'
    · rw [view_cache_set0]; exact hb'
    · intro n hn
      show (cache_set (materialize t).pager 0 _).pages n = none
      rw [cache_set_pages_other _ _ n hn]
      exact hmInv.others n hn
    · show (cache_set (materialize t).pager 0 _).num_pages = 1
      simpa [cache_set] using hmInv.npages
    · show (cache_set (materialize t).pager 0 _).file_length = _
      simpa [cache_set] using hmInv.flen
    · simpa [cache_set] using hmInv.fpages
    · simpa [cache_set] using hmInv.flen01

/-! ## The `select` loop characterized -/

theorem tableS_eta (t : TableS) :
    ({ pager := t.pager, root_page_num := t.root_page_num } : TableS) = t :=
  rfl

theorem select_loop_cached (pg : Page) :
    ∀ (fuel : Nat) (t : TableS) (c : CursorS),
      t.pager.pages c.page_num = some pg →
      c.end_of_table = false →
      c.cell_num < pg.cells.length →
      pg.cells.length - c.cell_num < fuel →
      select_loop t c fuel =
        (t, (pg.cells.drop c.cell_num).map (fun x => x.2)) := by
  intro fuel
  induction fuel with
  | zero => intro t c _ _ _ hf; omega
  | succ fuel ih =>
    intro t c hc hend hlt hf
    have hcc := get_page_cached hc
    have hdrop := List.drop_eq_getElem_cons hlt
    simp only [select_loop, hend, Bool.false_eq_true, if_false,
      cursor_value, cursor_advance, hcc]
    by_cases hlast : pg.cells.length ≤ c.cell_num + 1
    · simp only [if_pos hlast]
      have hfs : fuel = fuel - 1 + 1 := by omega
      rw [hfs]
      simp only [select_loop, if_pos rfl]
      have hdrop2 : pg.cells.drop (c.cell_num + 1) = [] :=
        List.drop_eq_nil_of_le (by omega)
      rw [hdrop, hdrop2, List.getD_eq_getElem pg.cells dummyCell hlt]
      rfl
    · have hnext : c.cell_num + 1 < pg.cells.length := by omega
      have hfb : pg.cells.length - (c.cell_num + 1) < fuel := by omega
      have hrec := ih t
        { page_num := c.page_num, cell_num := c.cell_num + 1,
          end_of_table := false } hc rfl hnext hfb
      simp only [if_neg hlast]
      rw [tableS_eta, hrec, hdrop, List.getD_eq_getElem pg.cells dummyCell hlt]
      rfl

theorem do_scan_char (t : TableS) (hInv : TableInv t) :
    do_scan t =
      some (materialize t, (page0_view t).cells.map (fun x => x.2)) := by
  have htf := table_find_char t 0 hInv.root0 hInv.leafP
  have hzero := find_pos_zero (page0_view t) hInv.sorted
  rw [hzero] at htf
  have hc : (materialize t).pager.pages 0 = some (page0_view t) :=
    materialize_pages0 t hInv.root0
  have hcc := get_page_cached hc
  unfold do_scan table_start
  rw [htf]
  simp only [hcc]
  by_cases hempty : (page0_view t).cells.length = 0
  · have : (page0_view t).cells = [] := List.length_eq_zero.mp hempty
    simp [select_loop, hempty, this]
  · have hend : (0 : Nat) < (page0_view t).cells.length := by omega
    rw [select_loop_cached (page0_view t) ((page0_view t).cells.length + 1)
      (materialize t) _ hc (by simp [hempty]) hend (by omega)]
    simp

theorem inv_scan (t t' : TableS) (rows : List RowT) (hInv : TableInv t)
    (h : do_scan t = some (t', rows)) : TableInv t' := by
  rw [do_scan_char t hInv] at h
  have := (Option.some_inj.mp h)
  have ht : t' = materialize t := by
    exact (congrArg Prod.fst this).symm
  rw [ht]
  exact materialize_inv hInv

/-! ## Close writes page 0 back; reopen reads it again -/

theorem db_close_char (t : TableS) (hInv : TableInv t) :
    db_close t = { len := PAGE_SIZE, pages := [page0_view t] } := by
  unfold db_close
  rw [hInv.npages]
  show (pager_flush (flush_range t.pager 0) 0).file = _
  show (pager_flush t.pager 0).file = _
  unfold pager_flush
  cases hc : t.pager.pages 0 with
  | none =>
    have hlen : t.pager.file.len = PAGE_SIZE := by
      rcases hInv.flen01 with h0 | h1
      · exfalso
        have hv : page0_view t = zeroPage := by
          unfold page0_view get_page
          rw [hc]
          have : ¬ (0 < t.pager.file_length / PAGE_SIZE) := by
            rw [hInv.flen, h0]
            simp [PAGE_SIZE]
          simp [this]
        have := hInv.leafP
        rw [hv] at this
        simp [zeroPage] at this
      · exact h1
    have hlp : t.pager.file.pages.length = 1 := by
      rw [hInv.fpages, hlen]
      simp [PAGE_SIZE]
    rcases List.length_eq_one.mp hlp with ⟨a, ha⟩
    have hv : page0_view t = a := by
      unfold page0_view get_page
      rw [hc]
      have hpos : 0 < t.pager.file_length / PAGE_SIZE := by
        rw [hInv.flen, hlen]
        simp [PAGE_SIZE]
      simp [hpos, ha]
    cases hfs : t.pager.file with
    | mk len pgs =>
      have hl2 : len = PAGE_SIZE := by rw [← hlen, hfs]
      have hpg : pgs = [a] := by rw [← ha, hfs]
      simp [hv, hl2, hpg, ← hfs]
  | some pg =>
    have hv : page0_view t = pg := view_of_cached hc
    unfold file_write_page
    rcases hInv.flen01 with h0 | h0
    · have hlp : t.pager.file.pages.length = 0 := by
        rw [hInv.fpages, h0]
        simp
      have hnil : t.pager.file.pages = [] := List.length_eq_zero.mp hlp
      simp [hv, hnil, hlp, h0, PAGE_SIZE]
    · have hlp : t.pager.file.pages.length = 1 := by
        rw [hInv.fpages, h0]
        simp [PAGE_SIZE]
      rcases List.length_eq_one.mp hlp with ⟨a, ha⟩
      simp [hv, ha, hlp, h0]

theorem view_reopen (t : TableS) (hInv : TableInv t) :
    page0_view (db_reopen t) = page0_view t := by
  unfold db_reopen
  rw [db_close_char t hInv]
  unfold db_open pager_open page0_view get_page
  simp [PAGE_SIZE, UINT32_MOD]

theorem inv_reopen (t : TableS) (hInv : TableInv t) :
    TableInv (db_reopen t) := by
  have hview := view_reopen t hInv
  have hre : db_reopen t =
      { pager := pager_open { len := PAGE_SIZE, pages := [page0_view t] }
        root_page_num := 0 } := by
    unfold db_reopen
    rw [db_close_char t hInv]
    unfold db_open
    simp [pager_open, PAGE_SIZE, UINT32_MOD]
  refine ⟨?_, ?_, ?_, ?_, ?_, ?_, ?_, ?_, ?_, ?_, ?_⟩
  · rw [hre]
  · rw [hview]; exact hInv.leafP
  · rw [hview]; exact hInv.notRoot
  · rw [hview]; exact hInv.sorted
  · rw [hview]; exact hInv.keysId
  · rw [hview]; exact hInv.bound
  · intro n hn
    rw [hre]
    rfl
  · rw [hre]
    show (PAGE_SIZE / PAGE_SIZE) % UINT32_MOD = 1
    simp [PAGE_SIZE, UINT32_MOD]
  · rw [hre]
    show PAGE_SIZE % UINT32_MOD = PAGE_SIZE
    simp [PAGE_SIZE, UINT32_MOD]
  · rw [hre]
    show ([page0_view t] : List Page).length = PAGE_SIZE / PAGE_SIZE
    simp [PAGE_SIZE]
  · rw [hre]
    right
    rfl

theorem inv_base : TableInv (db_open emptyFile) := by
  have hview : page0_view (db_open emptyFile) =
      { node_type := NodeTypeE.leaf, is_root := false, parent := 0,
        cells := [] } := by
    simp [db_open, pager_open, emptyFile, page0_view, get_page, cache_set,
      initialize_leaf_node, zeroPage, UINT32_MOD]
  refine ⟨?_, ?_, ?_, ?_, ?_, ?_, ?_, ?_, ?_, ?_, ?_⟩
  · simp [db_open, pager_open, emptyFile, UINT32_MOD]
  · rw [hview]
  · rw [hview]
  · rw [hview]; simp [pageKeys]
  · rw [hview]; simp
  · rw [hview]; simp
  · intro n hn
    simp [db_open, pager_open, emptyFile, get_page, cache_set, hn, UINT32_MOD]
  · simp [db_open, pager_open, emptyFile, get_page, cache_set, UINT32_MOD]
  · simp [db_open, pager_open, emptyFile, get_page, cache_set, UINT32_MOD]
  · simp [db_open, pager_open, emptyFile, get_page, cache_set, UINT32_MOD]
  · simp [db_open, pager_open, emptyFile, get_page, cache_set, UINT32_MOD]

theorem reach_inv {t : TableS} (h : Reach t) : TableInv t := by
  induction h with
  | base => exact inv_base
  | insert t r _ ih => exact inv_insert t r ih
  | scan t t' rows _ hs ih => exact inv_scan t t' rows ih hs
  | reopen t _ ih => exact inv_reopen t ih

/-! ## What an `insert` outcome means for the page contents -/

theorem insert_exec_cells (t : TableS) (r : RowT) (hInv : TableInv t)
    (hex : (do_insert t r).2 = InsertResult.executed) :
    List.Perm ((page0_view (do_insert t r).1).cells)
      ((r.id, r) :: (page0_view t).cells) := by
  rcases do_insert_trichotomy t r hInv with ⟨_, heq⟩ | ⟨_, _, heq⟩ | ⟨hlow, hnm, heq⟩
  · rw [heq] at hex; simp at hex
  · rw [heq] at hex; simp at hex
  · rw [heq]
    show List.Perm ((page0_view _).cells) _
    rw [view_cache_set0]
    exact (inv_insert_exec_page t r hInv hnm hlow).2.2.2

theorem insert_nonexec_view (t : TableS) (r : RowT) (hInv : TableInv t)
    (hnex : (do_insert t r).2 ≠ InsertResult.executed) :
    page0_view (do_insert t r).1 = page0_view t := by
  rcases do_insert_trichotomy t r hInv with ⟨_, heq⟩ | ⟨_, _, heq⟩ | ⟨_, _, heq⟩
  · rw [heq]
    exact view_materialize t hInv.root0
  · rw [heq]
    exact view_materialize t hInv.root0
  · rw [heq] at hnex
    simp at hnex

theorem base_view : page0_view (db_open emptyFile) =
    { node_type := NodeTypeE.leaf, is_root := false, parent := 0,
      cells := [] } := by
  simp [db_open, pager_open, emptyFile, page0_view, get_page, cache_set,
    initialize_leaf_node, zeroPage, UINT32_MOD]

/-! ## Folding a list of inserts -/

theorem run_inserts_inv (rs : List RowT) :
    ∀ t, TableInv t →
      TableInv (run_inserts t rs).1 ∧
      List.Perm ((page0_view (run_inserts t rs).1).cells)
        ((run_inserts t rs).2.map (fun r => (r.id, r)) ++
          (page0_view t).cells) := by
  induction rs with
  | nil =>
    intro t hInv
    exact ⟨hInv, by simp [run_inserts]⟩
  | cons r rest ih =>
    intro t hInv
    have hstep : TableInv (do_insert t r).1 := inv_insert t r hInv
    rcases ih (do_insert t r).1 hstep with ⟨ihInv, ihPerm⟩
    refine ⟨ihInv, ?_⟩
    show List.Perm ((page0_view (run_inserts (do_insert t r).1 rest).1).cells)
      ((if (do_insert t r).2 = InsertResult.executed then
          r :: (run_inserts (do_insert t r).1 rest).2
        else (run_inserts (do_insert t r).1 rest).2).map
          (fun x => (x.id, x)) ++ (page0_view t).cells)
    by_cases hex : (do_insert t r).2 = InsertResult.executed
    · rw [if_pos hex]
      have hcells := insert_exec_cells t r hInv hex
      refine ihPerm.trans ?_
      refine (List.Perm.append_left _ hcells).trans ?_
      simp only [List.map_cons, List.cons_append]
      exact List.perm_middle
    · rw [if_neg hex]
      rw [← insert_nonexec_view t r hInv hex]
      exact ihPerm

theorem reach_run (rs : List RowT) :
    ∀ t, Reach t → Reach (run_inserts t rs).1 := by
  induction rs with
  | nil => intro t h; exact h
  | cons r rest ih =>
    intro t h
    simp only [run_inserts]
    exact ih (do_insert t r).1 (Reach.insert t r h)

/-! ## The claims -/

/-- C1: for every sequence of insert commands run from a fresh table, a
subsequent scan yields exactly the rows whose insert reported success, in
strictly ascending id order, with no duplicates and no omissions. -/
theorem C1_scan_yields_inserted_sorted (rs : List RowT) :
    ∃ out : List RowT,
      scan_rows (run_inserts (db_open emptyFile) rs).1 = some out ∧
      List.Perm out (run_inserts (db_open emptyFile) rs).2 ∧
      List.Sorted (· < ·) (out.map RowT.id) := by
  rcases run_inserts_inv rs (db_open emptyFile) inv_base with ⟨hInv, hperm⟩
  rw [base_view] at hperm
  refine ⟨(page0_view (run_inserts (db_open emptyFile) rs).1).cells.map
    (fun x => x.2), ?_, ?_, ?_⟩
  · unfold scan_rows
    rw [do_scan_char _ hInv]
    rfl
  · have h := hperm.map (fun x : Cell => x.2)
    simpa [Function.comp_def] using h
  · have hkeys : (((page0_view (run_inserts (db_open emptyFile) rs).1).cells.map
        (fun x => x.2)).map RowT.id) =
        pageKeys (page0_view (run_inserts (db_open emptyFile) rs).1) := by
      rw [List.map_map]
      exact List.map_congr_left
        (fun c hc => (hInv.keysId c hc).symm)
    rw [hkeys]
    exact hInv.sorted

/-- C4: after any sequence of inserts from a fresh table, closing the
table (flushing every page) and reopening the written file yields a table
whose scan prints exactly the same rows in the same order. -/
theorem C4_close_reopen_scan_roundtrip (rs : List RowT) :
    scan_rows (db_reopen (run_inserts (db_open emptyFile) rs).1) =
      scan_rows (run_inserts (db_open emptyFile) rs).1 := by
  have hInv := (run_inserts_inv rs (db_open emptyFile) inv_base).1
  unfold scan_rows
  rw [do_scan_char _ hInv, do_scan_char _ (inv_reopen _ hInv),
    view_reopen _ hInv]
  rfl

/-- C5: on a leaf whose keys are strictly ascending, `leaf_node_find`
returns the smallest cell index whose key is greater than or equal to the
search key, and the cell count when no such cell exists, whether or not the
key is present. -/
theorem C5_leaf_find_lower_bound (pg : Page) (key : Nat)
    (hs : List.Sorted (· < ·) (pageKeys pg)) :
    (leaf_node_find (leaf_table pg) 0 key).2.cell_num ≤ pg.cells.length ∧
    (∀ j, j < (leaf_node_find (leaf_table pg) 0 key).2.cell_num →
      (pageKeys pg).getD j 0 < key) ∧
    ((leaf_node_find (leaf_table pg) 0 key).2.cell_num < pg.cells.length →
      key ≤ (pageKeys pg).getD
        ((leaf_node_find (leaf_table pg) 0 key).2.cell_num) 0) ∧
    ((∀ j, j < pg.cells.length → (pageKeys pg).getD j 0 < key) →
      (leaf_node_find (leaf_table pg) 0 key).2.cell_num = pg.cells.length) := by
  have hc : (leaf_table pg).pager.pages 0 = some pg := by
    simp [leaf_table]
  have hcur : (leaf_node_find (leaf_table pg) 0 key).2.cell_num =
      find_pos pg key := by
    simp only [leaf_node_find, find_pos, get_page_cached hc]
  rw [hcur]
  rcases find_pos_spec pg key hs with ⟨h1, h2, h3⟩
  refine ⟨h1, h2, h3, ?_⟩
  intro hall
  by_contra hne
  have hlt : find_pos pg key < pg.cells.length := by omega
  have := h3 hlt
  have := hall (find_pos pg key) hlt
  omega

/-- Witness for C5: searching the sorted leaf with keys 2, 5, 9 for key 6. -/
theorem C5_witness :
    List.Sorted (· < ·) (pageKeys pgW) ∧
    (leaf_node_find (leaf_table pgW) 0 6).2.cell_num ≤ pgW.cells.length ∧
    (pageKeys pgW).getD 1 0 < 6 := by
  have hs : List.Sorted (· < ·) (pageKeys pgW) := by decide
  have h := C5_leaf_find_lower_bound pgW 6 hs
  exact ⟨hs, h.1, h.2.1 1 (by decide)⟩

/-- C10: in every reachable state the root page number is still 0, page 0
is still a leaf, and no other page was ever materialized: inserts and
scans only touch page 0. -/
theorem C10_root_stays_single_leaf (t : TableS) (h : Reach t) :
    t.root_page_num = 0 ∧
    (page0_view t).node_type = NodeTypeE.leaf ∧
    (∀ n, n ≠ 0 → t.pager.pages n = none) ∧
    t.pager.num_pages = 1 := by
  have hInv := reach_inv h
  exact ⟨hInv.root0, hInv.leafP, hInv.others, hInv.npages⟩

/-- Witness for C10: the freshly opened table. -/
theorem C10_witness :
    (db_open emptyFile).root_page_num = 0 ∧
    (page0_view (db_open emptyFile)).node_type = NodeTypeE.leaf ∧
    (db_open emptyFile).pager.pages 5 = none ∧
    (db_open emptyFile).pager.num_pages = 1 := by
  have h := C10_root_stays_single_leaf (db_open emptyFile) Reach.base
  exact ⟨h.1, h.2.1, h.2.2.1 5 (by decide), h.2.2.2⟩

/-- C9: `LEAF_NODE_MAX_CELLS` computes to 13, every reachable state holds
at most 13 cells, and an insert attempted at 13 cells is rejected as
table-full before any mutation. -/
theorem C9_leaf_capacity_13 :
    LEAF_NODE_MAX_CELLS = 13 ∧
    (∀ t, Reach t → cellCount t ≤ LEAF_NODE_MAX_CELLS) ∧
    (∀ t r, Reach t → cellCount t = LEAF_NODE_MAX_CELLS →
      (do_insert t r).2 = InsertResult.tableFull ∧
      page0_view (do_insert t r).1 = page0_view t) := by
  refine ⟨by decide, fun t h => (reach_inv h).bound, fun t r h hfull => ?_⟩
  have hInv := reach_inv h
  have hge : LEAF_NODE_MAX_CELLS ≤ (page0_view t).cells.length := by
    have : cellCount t = (page0_view t).cells.length := rfl
    omega
  have heq := do_insert_full t r hInv.root0 hge
  constructor
  · rw [heq]
  · rw [heq]
    exact view_materialize t hInv.root0

/-- Witness for C9: the table filled with ids 1 … 13. -/
theorem C9_witness :
    LEAF_NODE_MAX_CELLS = 13 ∧ cellCount t13 = 13 ∧
    (do_insert t13 (wrow 100)).2 = InsertResult.tableFull := by
  have hr : Reach t13 := reach_run wrows13 (db_open emptyFile) Reach.base
  have h := C9_leaf_capacity_13
  exact ⟨h.1, by decide, (h.2.2 t13 (wrow 100) hr (by decide)).1⟩

/-- Counterexample for C2: the table whose single leaf holds exactly
`LEAF_NODE_MAX_CELLS` = 13 cells, receiving one more insert with fresh key
100.  No split happens: the insert is rejected as table-full, the state
still has 13 cells in total and exactly one leaf page, not two leaves with
14 combined cells as the claim requires. -/
theorem C2_counterexample :
    cellCount t13 = LEAF_NODE_MAX_CELLS ∧
    (do_insert t13 (wrow 100)).2 = InsertResult.tableFull ∧
    total_cells (do_insert t13 (wrow 100)).1 = 13 ∧
    leaf_page_count (do_insert t13 (wrow 100)).1 = 1 := by decide

/-- C2 (amended): inserting into a table whose leaf holds exactly
`LEAF_NODE_MAX_CELLS` cells is rejected with a table-full error before any
mutation; no leaf split occurs (page 0 is unchanged and no second page is
materialized). -/
theorem C2_full_leaf_insert_rejected (t : TableS) (r : RowT)
    (h : Reach t) (hfull : cellCount t = LEAF_NODE_MAX_CELLS) :
    (do_insert t r).2 = InsertResult.tableFull ∧
    page0_view (do_insert t r).1 = page0_view t ∧
    (∀ n, n ≠ 0 → (do_insert t r).1.pager.pages n = none) := by
  have hInv := reach_inv h
  have hge : LEAF_NODE_MAX_CELLS ≤ (page0_view t).cells.length := by
    have : cellCount t = (page0_view t).cells.length := rfl
    omega
  have heq := do_insert_full t r hInv.root0 hge
  refine ⟨by rw [heq], ?_, ?_⟩
  · rw [heq]
    exact view_materialize t hInv.root0
  · exact (inv_insert t r hInv).others

/-- Witness for the amended C2: the full table of ids 1 … 13 plus key 100. -/
theorem C2_witness :
    cellCount t13 = LEAF_NODE_MAX_CELLS ∧
    (do_insert t13 (wrow 100)).2 = InsertResult.tableFull ∧
    page0_view (do_insert t13 (wrow 100)).1 = page0_view t13 ∧
    (do_insert t13 (wrow 100)).1.pager.pages 1 = none := by
  have hr : Reach t13 := reach_run wrows13 (db_open emptyFile) Reach.base
  have h := C2_full_leaf_insert_rejected t13 (wrow 100) hr (by decide)
  exact ⟨by decide, h.1, h.2.1, h.2.2 1 (by decide)⟩

/-- Counterexample for C3: in the full table of ids 1 … 13, id 1 is
present, yet inserting id 1 again reports table-full, not duplicate-key:
the full-table check runs before the duplicate check. -/
theorem C3_counterexample :
    1 ∈ pageKeys (page0_view t13) ∧
    (do_insert t13 (wrow 1)).2 = InsertResult.tableFull ∧
    (do_insert t13 (wrow 1)).2 ≠ InsertResult.duplicateKey := by decide

/-- C3 (amended): inserting an id already present leaves the table state
(page 0 contents, hence cell count and scan output) unchanged; it fails
with a duplicate-key error whenever the leaf is below capacity, and with a
table-full error when the leaf is at capacity. -/
theorem C3_duplicate_insert_no_mutation (t : TableS) (r : RowT)
    (h : Reach t) (hmem : r.id ∈ pageKeys (page0_view t)) :
    page0_view (do_insert t r).1 = page0_view t ∧
    scan_rows (do_insert t r).1 = scan_rows t ∧
    (cellCount t < LEAF_NODE_MAX_CELLS →
      (do_insert t r).2 = InsertResult.duplicateKey) ∧
    (LEAF_NODE_MAX_CELLS ≤ cellCount t →
      (do_insert t r).2 = InsertResult.tableFull) := by
  have hInv := reach_inv h
  have hcc : cellCount t = (page0_view t).cells.length := rfl
  have hview : page0_view (do_insert t r).1 = page0_view t := by
    rcases do_insert_trichotomy t r hInv with ⟨_, heq⟩ | ⟨_, _, heq⟩ | ⟨_, hnm, _⟩
    · rw [heq]; exact view_materialize t hInv.root0
    · rw [heq]; exact view_materialize t hInv.root0
    · exact absurd hmem hnm
  refine ⟨hview, ?_, ?_, ?_⟩
  · unfold scan_rows
    rw [do_scan_char _ (inv_insert t r hInv), do_scan_char _ hInv, hview]
    rfl
  · intro hlt
    rcases do_insert_trichotomy t r hInv with ⟨hf, _⟩ | ⟨_, _, heq⟩ | ⟨_, hnm, _⟩
    · omega
    · rw [heq]
    · exact absurd hmem hnm
  · intro hge
    rcases do_insert_trichotomy t r hInv with ⟨_, heq⟩ | ⟨hl, _, _⟩ | ⟨hl, _, _⟩
    · rw [heq]
    · omega
    · omega

/-- Witness for the amended C3: the table holding ids 1, 2, 3 (below
capacity) and a second insert of id 1. -/
theorem C3_witness :
    1 ∈ pageKeys (page0_view t3w) ∧
    page0_view (do_insert t3w (wrow 1)).1 = page0_view t3w ∧
    scan_rows (do_insert t3w (wrow 1)).1 = scan_rows t3w ∧
    (do_insert t3w (wrow 1)).2 = InsertResult.duplicateKey := by
  have hr : Reach t3w :=
    reach_run [wrow 3, wrow 1, wrow 2] (db_open emptyFile) Reach.base
  have h := C3_duplicate_insert_no_mutation t3w (wrow 1) hr (by decide)
  exact ⟨by decide, h.1, h.2.1, h.2.2.1 (by decide)⟩

/-- Counterexample for C6: after open on an empty file, page 0 is an empty
leaf but its is-root flag is false, not true — `initialize_leaf_node` sets
only the node type and the cell count, and nothing in the program ever
writes the is-root byte. -/
theorem C6_counterexample :
    (page0_view (db_open emptyFile)).node_type = NodeTypeE.leaf ∧
    (page0_view (db_open emptyFile)).cells = [] ∧
    (page0_view (db_open emptyFile)).is_root = false := by decide

/-- C6 (amended): after open on an empty file, page 0 is initialized as a
leaf with zero cells, but its is-root flag is left false (the zeroed
value); in every reachable state every page, the root included, has the
is-root flag false. -/
theorem C6_open_leaf_root_flag_false (t : TableS) (h : Reach t) :
    (page0_view (db_open emptyFile)).node_type = NodeTypeE.leaf ∧
    (page0_view (db_open emptyFile)).cells = [] ∧
    (page0_view t).is_root = false ∧
    (∀ n pg, t.pager.pages n = some pg → pg.is_root = false) := by
  have hInv := reach_inv h
  refine ⟨by rw [base_view], by rw [base_view], hInv.notRoot, ?_⟩
  intro n pg hpg
  by_cases hn : n = 0
  · subst hn
    rw [← view_of_cached hpg]
    exact hInv.notRoot
  · rw [hInv.others n hn] at hpg
    exact absurd hpg (by simp)

/-- Witness for the amended C6: the freshly opened table and its page 0. -/
theorem C6_witness :
    (page0_view (db_open emptyFile)).node_type = NodeTypeE.leaf ∧
    (page0_view (db_open emptyFile)).is_root = false ∧
    ({ node_type := NodeTypeE.leaf, is_root := false, parent := 0,
       cells := [] } : Page).is_root = false := by
  have h := C6_open_leaf_root_flag_false (db_open emptyFile) Reach.base
  exact ⟨h.1, h.2.2.1, h.2.2.2 0 _ (by decide)⟩

/-- Counterexample for C7: a 5000-byte file (one full page plus a 904-byte
fragment).  The spec-mandated open rejects it as corruption, but
`pager_open` succeeds, computing `num_pages = 5000 / 4096 = 1` and thereby
silently ignoring the trailing partial page; requesting the page that
covers the fragment returns a fresh zeroed buffer, not the file bytes. -/
theorem C7_counterexample :
    pager_open_spec fileW = Except.error DbError.corruption ∧
    (pager_open fileW).num_pages = 1 ∧
    (get_page (pager_open fileW) 1).2 = zeroPage :=
  ⟨rfl, by decide, by decide⟩

/-- C7 (amended): open on a file whose length is not a multiple of
`PAGE_SIZE` does not fail.  For any such file within the capacity the
engine supports — length below `TABLE_MAX_PAGES · PAGE_SIZE`, so the page
count fits the `uint32_t` fields untruncated and the page covering the
trailing fragment is a valid index into the `TABLE_MAX_PAGES`-entry cache
array — open counts `len / PAGE_SIZE` whole pages (strictly fewer bytes
than the file holds), and the fragment page reads back as a fresh zeroed
page rather than surfacing an error. -/
theorem C7_open_ignores_trailing_fragment (f : FileS)
    (h : ¬ (f.len % PAGE_SIZE = 0))
    (hcap : f.len < TABLE_MAX_PAGES * PAGE_SIZE) :
    pager_open_spec f = Except.error DbError.corruption ∧
    (pager_open f).num_pages = f.len / PAGE_SIZE ∧
    (pager_open f).num_pages * PAGE_SIZE < f.len ∧
    f.len / PAGE_SIZE < TABLE_MAX_PAGES ∧
    (get_page (pager_open f) (f.len / PAGE_SIZE)).2 = zeroPage := by
  have hfrag : f.len / PAGE_SIZE < TABLE_MAX_PAGES := by
    simp only [PAGE_SIZE, TABLE_MAX_PAGES] at hcap ⊢
    omega
  have hnp : (pager_open f).num_pages = f.len / PAGE_SIZE := by
    show (f.len / PAGE_SIZE) % UINT32_MOD = f.len / PAGE_SIZE
    apply Nat.mod_eq_of_lt
    simp only [TABLE_MAX_PAGES] at hfrag
    simp only [UINT32_MOD]
    omega
  have hfl : (pager_open f).file_length = f.len := by
    show f.len % UINT32_MOD = f.len
    apply Nat.mod_eq_of_lt
    simp only [PAGE_SIZE, TABLE_MAX_PAGES] at hcap
    simp only [UINT32_MOD]
    omega
  refine ⟨?_, hnp, ?_, hfrag, ?_⟩
  · unfold pager_open_spec
    rw [if_neg h]
  · rw [hnp]
    have h2 : ¬ (f.len % 4096 = 0) := by
      simpa [PAGE_SIZE] using h
    simp only [PAGE_SIZE]
    omega
  · have hnone : (pager_open f).pages (f.len / PAGE_SIZE) = none := rfl
    have hguard :
        ¬ (f.len / PAGE_SIZE < (pager_open f).file_length / PAGE_SIZE) := by
      rw [hfl]
      omega
    simp only [get_page, hnone, if_neg hguard]

/-- Witness for the amended C7: the 5000-byte file. -/
theorem C7_witness :
    ¬ (fileW.len % PAGE_SIZE = 0) ∧
    fileW.len < TABLE_MAX_PAGES * PAGE_SIZE ∧
    pager_open_spec fileW = Except.error DbError.corruption ∧
    (pager_open fileW).num_pages = 1 := by
  have h := C7_open_ignores_trailing_fragment fileW (by decide) (by decide)
  exact ⟨by decide, by decide, h.1, h.2.1.trans (by decide)⟩

/-- Counterexample for C8: with a cell count of 0, access at index 14 is
not rejected: the spec-side checked accessor returns nothing, but the
embedded `leaf_node_cell` computes offset 10 + 14 · 297 = 4168; that cell
even extends past the 4096-byte page boundary. -/
theorem C8_counterexample :
    leaf_node_cell_spec 0 14 = none ∧
    leaf_node_cell 14 = 4168 ∧
    PAGE_SIZE < leaf_node_cell 14 + LEAF_NODE_CELL_SIZE := by decide

/-- The offset multiply is `uint32_t` arithmetic and the model wraps with
it: at index 14461170 the product 14461170 · 297 = 2^32 + 194 wraps, and
the accessor computes offset 10 + 194 = 204 — back inside the page — just
as the C program does. -/
theorem leaf_node_cell_wrap_u32 : leaf_node_cell 14461170 = 204 := by decide

/-- C8 (amended): the leaf accessors perform no bounds check.  For every
index at or past the cell count — where the spec demands rejection, and
the checked accessor indeed yields nothing — the code still computes the
cell, key and value offsets by plain (`uint32_t`-wrapping) arithmetic, and
any index past `LEAF_NODE_MAX_CELLS` whose offset multiply does not wrap
modulo 2^32 addresses bytes beyond the page. -/
theorem C8_accessors_unchecked (num_cells i : Nat) (h : num_cells ≤ i) :
    leaf_node_cell_spec num_cells i = none ∧
    leaf_node_cell i =
      LEAF_NODE_HEADER_SIZE + (i * LEAF_NODE_CELL_SIZE) % UINT32_MOD ∧
    leaf_node_key_offset i = leaf_node_cell i ∧
    leaf_node_value_offset i = leaf_node_cell i + LEAF_NODE_KEY_SIZE ∧
    (LEAF_NODE_MAX_CELLS < i → i * LEAF_NODE_CELL_SIZE < UINT32_MOD →
      PAGE_SIZE < leaf_node_cell i + LEAF_NODE_CELL_SIZE) := by
  refine ⟨?_, rfl, rfl, rfl, ?_⟩
  · unfold leaf_node_cell_spec
    rw [if_neg (by omega)]
  · intro hi hw
    unfold leaf_node_cell
    rw [Nat.mod_eq_of_lt hw]
    simp only [PAGE_SIZE, LEAF_NODE_HEADER_SIZE,
      COMMON_NODE_HEADER_SIZE, NODE_TYPE_SIZE, IS_ROOT_SIZE,
      PARENT_POINTER_SIZE, LEAF_NODE_NUM_CELLS_SIZE, LEAF_NODE_CELL_SIZE,
      LEAF_NODE_KEY_SIZE, LEAF_NODE_VALUE_SIZE, ROW_SIZE, ID_SIZE,
      USERNAME_SIZE, EMAIL_SIZE, COLUMN_USERNAME_SIZE, COLUMN_EMAIL_SIZE,
      LEAF_NODE_MAX_CELLS, LEAF_NODE_SPACE_FOR_CELLS] at hi ⊢
    omega

/-- Witness for the amended C8: count 0, index 14 (multiply 14 · 297 =
4158 does not wrap). -/
theorem C8_witness :
    (0 : Nat) ≤ 14 ∧ leaf_node_cell_spec 0 14 = none ∧
    PAGE_SIZE < leaf_node_cell 14 + LEAF_NODE_CELL_SIZE := by
  have h := C8_accessors_unchecked 0 14 (by decide)
  exact ⟨by decide, h.1, h.2.2.2.2 (by decide) (by decide)⟩
